import Mathlib

/-!
Verification development for the AI-Media-Processor-Pro repository.

The definitions below are a shallow embedding of `processing_logic.py`
(the media pipeline) and of the queue loop `App._process_queue` in
`app_ui.py`.  Python floats are modelled as exact rationals, machine
integers as `Nat`/`Int`, and the external collaborators (ffmpeg, demucs,
yt-dlp, whisper) as opaque parameters or abstract work items.  File
writing is modelled by returning the written text.
-/

/-! ## Configuration constants (processing_logic.py lines 14-16) -/

def CHUNK_DURATION_SECONDS : ℚ := 300

def LYRIC_PRE_DISPLAY_OFFSET_SECONDS : ℚ := 1/2

/-! ## Basic data types -/

/-- The four fixed stem names (processing_logic.py line 106). -/
inductive Stem
  | vocals
  | drums
  | bass
  | other
deriving DecidableEq, Repr

/-- The list `stems = ["vocals", "drums", "bass", "other"]` of processing_logic.py line 106. -/
def stems : List Stem := [.vocals, .drums, .bass, .other]

/-- The `export_mode` argument of `process_media`: "Video" | "Audio Only" | "Stems Only". -/
inductive ExportMode
  | video
  | audioOnly
  | stemsOnly
deriving DecidableEq, Repr

/-- A Python value passed where a string is expected: either an actual string
or some non-string value (the `isinstance(hex_color, str)` check in
`hex_to_ass_color` distinguishes exactly these two cases). -/
inductive PyVal
  | str (s : String)
  | nonStr
deriving DecidableEq

/-! ## Color helper (processing_logic.py lines 35-39) -/

/-- One character of the class `[0-9a-fA-F]`. -/
def isAsciiHexDigit (c : Char) : Bool :=
  c.isDigit || ('a' ≤ c && c ≤ 'f') || ('A' ≤ c && c ≤ 'F')

/-- A character list of the exact shape `#` followed by six hex digits,
i.e. the text matched by the body of the pattern `^#[0-9a-fA-F]{6}$`. -/
def colorRegexCore : List Char → Bool
  | '#' :: rest => rest.length == 6 && rest.all isAsciiHexDigit
  | _ => false

/-- Python's `re.match(r'^#[0-9a-fA-F]{6}$', s)` succeeds iff the whole string
has the core shape, or the string is the core shape followed by one final
newline: without `re.MULTILINE`, `$` matches at the end of the string and
also just before a trailing `'\n'`. -/
def colorRegexMatch (s : String) : Bool :=
  colorRegexCore s.data ||
    (match s.data.getLast? with
     | some '\n' => colorRegexCore s.data.dropLast
     | _ => false)

/-- Python slice `l[a:b]` for `0 ≤ a ≤ b` on a character list. -/
def pySlice (l : List Char) (a b : Nat) : List Char :=
  (l.drop a).take (b - a)

/-- `hex_to_ass_color` (processing_logic.py lines 35-39): converts `#RRGGBB`
to `&HBBGGRR&` (uppercased, via `str.upper()` on the whole f-string) and
returns `"&H00FFFFFF&"` for a non-string or a string the regex rejects. -/
def hex_to_ass_color (hex_color : PyVal) : String :=
  match hex_color with
  | .nonStr => "&H00FFFFFF&"
  | .str s =>
    if colorRegexMatch s then
      ⟨(('&' :: 'H' :: (pySlice s.data 5 7 ++ pySlice s.data 3 5 ++ pySlice s.data 1 3 ++ ['&'])).map
        Char.toUpper)⟩
    else "&H00FFFFFF&"

/-- The claim's notion of a well-formed color argument: a string that is
exactly `#` plus six hex digits (everything else is "malformed"). -/
def strict_color_format : PyVal → Bool
  | .str s => colorRegexCore s.data
  | .nonStr => false

/-! ## Subtitle generator (processing_logic.py lines 41-86) -/

/-- One word of a transcription segment: text plus start/end seconds
(`word.word`, `word.start`, `word.end` in the source). -/
structure TranscriptWord where
  word : String
  start : ℚ
  end_ : ℚ
deriving DecidableEq

/-- One segment of a Transcription Result (`segment.start`, `segment.end`,
`segment.words`). -/
structure TranscriptSegment where
  start : ℚ
  end_ : ℚ
  words : List TranscriptWord
deriving DecidableEq

/-- Python `int(x)` on a rational: truncation toward zero. -/
def pyInt (q : ℚ) : ℤ :=
  if 0 ≤ q then ⌊q⌋ else -⌊-q⌋

/-- Python `a % b` on rationals (floor-style remainder, as for floats). -/
def pyMod (a b : ℚ) : ℚ :=
  a - b * ⌊a / b⌋

/-- Python `f"{z:02}"` for an integer: pad a single digit with a leading zero. -/
def pad2 (z : ℤ) : String :=
  if 0 ≤ z ∧ z < 10 then "0" ++ toString z else toString z

/-- The time format of processing_logic.py lines 74-75:
`f"{int(q//3600)}:{int(q%3600//60):02}:{int(q%60):02}.{int(q%1*100):02}"`.
`int` applied to the integral value `q//3600` is `⌊q/3600⌋` itself. -/
def format_time (q : ℚ) : String :=
  toString ⌊q / 3600⌋ ++ ":" ++ pad2 ⌊pyMod q 3600 / 60⌋ ++ ":" ++
    pad2 (pyInt (pyMod q 60)) ++ "." ++ pad2 (pyInt (pyMod q 1 * 100))

/-- `duration_cs` of processing_logic.py line 80:
`int((word.end - word.start) * 100)`. -/
def duration_cs (word : TranscriptWord) : ℤ :=
  pyInt ((word.end_ - word.start) * 100)

/-- The karaoke style block: the values the generator reads out of the
`styles` dict (`styles.get(key, default)`, lines 46-51); the caller-side
defaulting is folded into the construction of this record. -/
structure KaraokeStyles where
  highlight_color : PyVal
  upcoming_color : PyVal
  outline_color : PyVal
  shadow_color : PyVal
  font_name : String
  font_size : ℤ
deriving DecidableEq

/-- The fixed ASS header written by lines 55-69 of the source: script info,
style table with the single `Karaoke` style, and the events header. -/
def ass_header (styles : KaraokeStyles) : String :=
  "[Script Info]\nTitle: Karaoke Lyrics\nScriptType: v4.00+\nPlayResX: 1280\nPlayResY: 720\n\n"
  ++ "[V4+ Styles]\n"
  ++ "Format: Name, Fontname, Fontsize, PrimaryColour, SecondaryColour, OutlineColour, BackColour, Bold, Italic, Underline, StrikeOut, ScaleX, ScaleY, Spacing, Angle, BorderStyle, Outline, Shadow, Alignment, MarginL, MarginR, MarginV, Encoding\n"
  ++ "Style: Karaoke," ++ styles.font_name ++ "," ++ toString styles.font_size ++ ","
  ++ hex_to_ass_color styles.highlight_color ++ "," ++ hex_to_ass_color styles.upcoming_color ++ ","
  ++ hex_to_ass_color styles.outline_color ++ "," ++ hex_to_ass_color styles.shadow_color ++ ","
  ++ "-1,0,0,0,100,100,0,0,1,2,2,2,10,10,20,1\n\n"
  ++ "[Events]\n"
  ++ "Format: Layer, Start, End, Style, Name, MarginL, MarginR, MarginV, Effect, Text\n"

/-- `_generate_karaoke_subtitles` (processing_logic.py lines 41-86), modelled
as the text written to the output file: header first, then one `Dialogue`
line per segment, accumulated in write order.  The word fragment is
`f"{{\k{duration_cs}}}{word.word.strip()}"` and fragments are joined by
`" ".join(line_parts)`. -/
def _generate_karaoke_subtitles (transcription_result : List TranscriptSegment)
    (styles : KaraokeStyles) : String :=
  transcription_result.foldl
    (fun buf segment =>
      let start_s := max 0 (segment.start - LYRIC_PRE_DISPLAY_OFFSET_SECONDS)
      let start_time := format_time start_s
      let end_time := format_time segment.end_
      let line_parts := segment.words.map
        (fun word => "\x7b\\k" ++ toString (duration_cs word) ++ "\x7d" ++ word.word.trim)
      let line_text := String.intercalate " " line_parts
      buf ++ ("Dialogue: 0," ++ start_time ++ "," ++ end_time ++ ",Karaoke,,0,0,0,," ++ line_text ++ "\n"))
    (ass_header styles)

/-- The cue line as the spec describes it: display window from
`max(0, start - 0.5)` to the segment's natural end, word fragments carrying
their centisecond durations, joined by a single space in original order. -/
def spec_cue_line (segment : TranscriptSegment) : String :=
  "Dialogue: 0," ++ format_time (max 0 (segment.start - 1/2)) ++ "," ++ format_time segment.end_
  ++ ",Karaoke,,0,0,0,,"
  ++ String.intercalate " "
      (segment.words.map (fun w => "\x7b\\k" ++ toString (duration_cs w) ++ "\x7d" ++ w.word.trim))
  ++ "\n"

/-! ## Split stage (processing_logic.py lines 172-180) -/

/-- `num_chunks = math.ceil(duration / CHUNK_DURATION_SECONDS) or 1`
(line 174): Python's `or` replaces a zero (falsy) ceiling by 1. -/
def num_chunks (duration : ℚ) : ℤ :=
  let c := ⌈duration / CHUNK_DURATION_SECONDS⌉
  if c = 0 then 1 else c

/-- Modelled from the spec: the codec collaborator (ffmpeg, invoked at lines
177-179 with `ss=i*CHUNK_DURATION_SECONDS, t=CHUNK_DURATION_SECONDS`) slices
the probed track into `num_chunks` fixed-length chunks, the last possibly
shorter; chunk `i` covers `[300*i, min(d, 300*(i+1)))` of a track of
duration `d`.  The slicing itself happens inside the external tool. -/
def chunk_durations (d : ℚ) : List ℚ :=
  (List.range (num_chunks d).toNat).map
    (fun i => min CHUNK_DURATION_SECONDS (d - CHUNK_DURATION_SECONDS * i))

/-! ## Subprocess progress bridge (processing_logic.py lines 188-197) -/

/-- The per-line state update and progress emission of the demucs stderr
loop (lines 190-197): state is `(chunks_processed, last_percentage)`,
initially `(0, 0)`; on a parsed percentage `p`, if `p < last_percentage`
and `last_percentage > 95` the completed-chunk counter is bumped (capped at
`num_chunks`), and the emitted overall progress is
`30 + ((chunks_processed + p/100) / num_chunks) * 40`. -/
def demucs_progress (numChunks : ℕ) : List ℕ → ℕ × ℕ → List ℚ
  | [], _ => []
  | p :: rest, (chunks_processed, last_percentage) =>
    let chunks' := if p < last_percentage ∧ 95 < last_percentage
      then min (chunks_processed + 1) numChunks else chunks_processed
    (30 + (((chunks' : ℚ) + (p : ℚ) / 100) / (numChunks : ℚ)) * 40) ::
      demucs_progress numChunks rest (chunks', p)

/-- The spec's reading of the same loop: keep a cumulative count of rollover
events (percentage drops below the previous one while the previous exceeded
95) and report `30 + ((min(count, total) + p/100) / total) * 40`, the
counter capped at the chunk count. -/
def spec_progress_values (numChunks : ℕ) (prev cnt : ℕ) : List ℕ → List ℚ
  | [] => []
  | p :: rest =>
    let cnt' := cnt + (if p < prev ∧ 95 < prev then 1 else 0)
    (30 + (((min cnt' numChunks : ℕ) + (p : ℚ) / 100) / (numChunks : ℚ)) * 40) ::
      spec_progress_values numChunks p cnt' rest

/-! ## Mix stage (processing_logic.py lines 206-216) -/

/-- The result of mixing one chunk: either a weighted mix of the qualifying
stems (in the order of the fixed `stems` list) or the silent placeholder
`anullsrc` of `t=CHUNK_DURATION_SECONDS` seconds. -/
inductive MixedChunk
  | mix (valid : List Stem)
  | silence (t : ℚ)
deriving DecidableEq

/-- `valid_stems` (line 209): the stems whose separated file exists and whose
configured volume is strictly positive (`stem_volumes.get(s, 0) > 0`). -/
def valid_stems (fileExists : Stem → Bool) (stem_volumes : Stem → ℚ) : List Stem :=
  stems.filter (fun s => fileExists s && decide (0 < stem_volumes s))

/-- The per-chunk branch of lines 209-216: silence of the configured chunk
length when no stem qualifies, otherwise the amix of the qualifying stems. -/
def mix_chunk (fileExists : Stem → Bool) (stem_volumes : Stem → ℚ) : MixedChunk :=
  if valid_stems fileExists stem_volumes = [] then
    .silence CHUNK_DURATION_SECONDS
  else
    .mix (valid_stems fileExists stem_volumes)

/-! ## Effects stage (processing_logic.py lines 229-238) -/

/-- The audio filters the effects stage can append, in source order:
`loudnorm`, `rubberband` (with its frequency-ratio argument), `atempo`. -/
inductive AudioFilter
  | loudnorm
  | rubberband (pitch : ℝ)
  | atempo (speed : ℚ)

/-- `pitch_multiplier = 2**(pitch_shift / 12.0)` (line 235). -/
noncomputable def pitch_multiplier (pitch_shift : ℤ) : ℝ :=
  (2 : ℝ) ^ ((pitch_shift : ℝ) / 12)

/-- The guard of line 230: the effects stage runs iff
`normalize_volume or pitch_shift != 0 or speed_multiplier != 1.0`. -/
def effects_stage_runs (normalize_volume : Bool) (pitch_shift : ℤ)
    (speed_multiplier : ℚ) : Bool :=
  normalize_volume || (pitch_shift != 0) || (speed_multiplier != 1)

/-- The filter chain built by lines 232-238, in source order: `loudnorm`
when normalizing, then `rubberband` when the pitch shift is nonzero, then
`atempo` when the speed differs from 1. -/
noncomputable def effects_filters (normalize_volume : Bool) (pitch_shift : ℤ)
    (speed_multiplier : ℚ) : List AudioFilter :=
  (if normalize_volume then [.loudnorm] else [])
  ++ (if pitch_shift ≠ 0 then [.rubberband (pitch_multiplier pitch_shift)] else [])
  ++ (if speed_multiplier ≠ 1 then [.atempo speed_multiplier] else [])

/-- Position of each filter kind in the fixed normalize → pitch → tempo order. -/
def filterRank : AudioFilter → ℕ
  | .loudnorm => 0
  | .rubberband _ => 1
  | .atempo _ => 2

/-! ## Stems-Only export (processing_logic.py lines 107-108 and 252-270) -/

/-- Lines 107-108: `if stems_to_export is None: stems_to_export = []`. -/
def normalize_stems_to_export : Option (List Stem) → List Stem
  | none => []
  | some l => l

/-- Observable outcome of the `export_mode == "Stems Only"` branch
(lines 252-270): whether the per-job stems folder was created, which stems
were written (stems whose separated files are missing are skipped by the
`continue` at line 259), and the final progress event. -/
structure StemsOnlyResult where
  dirCreated : Bool
  exported : List Stem
  finalPct : ℚ
  finalSuccess : Bool
deriving DecidableEq

/-- The Stems Only branch: the output folder is created unconditionally
before the loop; each selected stem with at least one separated file on
disk is concatenated and encoded; the branch finishes with the success
event at 100.  (Encoder failures, which would raise `ProcessingError`, are
outside this model; for an empty selection the loop body never runs, so no
encoder is ever invoked.) -/
def stems_only_export (stems_to_export : Option (List Stem))
    (hasFiles : Stem → Bool) : StemsOnlyResult :=
  { dirCreated := true
    exported := (normalize_stems_to_export stems_to_export).filter hasFiles
    finalPct := 100
    finalSuccess := true }

/-! ## Cleanup (processing_logic.py lines 305-311) -/

/-- How a run of `process_media` ended when control reaches the `finally`. -/
inductive RunOutcome
  | success
  | cancelled
  | error
deriving DecidableEq

/-- The progress event the `finally` block emits: the success message of
line 309 or the warning of line 311. -/
inductive CleanupEvent
  | cleaned
  | warned
deriving DecidableEq

/-- What the `finally` block leaves behind: whether the scratch directory
still exists, which event (if any) was emitted, and whether the block
itself raised. -/
structure CleanupResult where
  dirExistsAfter : Bool
  event : Option CleanupEvent
  raised : Bool
deriving DecidableEq

/-- The `finally` block (lines 305-311): if the scratch directory was
assigned and exists, try `shutil.rmtree`; on success emit the cleanup
event, on `OSError` emit the warning and leave the tree in place.  The
block never raises. -/
def cleanupFinally (dirCreated dirExistsBefore removeOk : Bool) : CleanupResult :=
  if dirCreated && dirExistsBefore then
    if removeOk then ⟨false, some .cleaned, false⟩
    else ⟨true, some .warned, false⟩
  else ⟨dirExistsBefore, none, false⟩

/-- `process_media`'s exit: whatever the outcome of the `try` body
(success, `CancelledError`, or any other error, re-raised at line 304),
the `finally` cleanup runs and the outcome is preserved. -/
def process_media_finally (outcome : RunOutcome)
    (dirCreated dirExistsBefore removeOk : Bool) : RunOutcome × CleanupResult :=
  (outcome, cleanupFinally dirCreated dirExistsBefore removeOk)

/-! ## Pipeline checkpoint structure (processing_logic.py lines 112-295)

The pipeline body is abstracted to the sequence of its cancellation polls
(`check_cancel(cancel_flag)`) and the work performed between them.  Each
work item stands for the side-effecting code between two polls; per-item
loops are unrolled into one work item per iteration. -/

/-- The units of work of `process_media`, in source order. -/
inductive WorkItem
  | setup
  | acquire
  | transcribe
  | splitSetup
  | splitChunk (i : ℕ)
  | separateSpawn
  | progressLine (i : ℕ)
  | separateWait
  | mixSetup
  | mixChunk (i : ℕ)
  | mergeChunks
  | effects
  | exportAudioTrack
  | stemsSetup
  | exportStem (s : Stem)
  | exportVideo
deriving DecidableEq, Repr

/-- One step of the pipeline: a cancellation poll or a unit of work. -/
inductive Op
  | poll
  | work (w : WorkItem)
deriving DecidableEq, Repr

/-- The configuration of one `process_media` run insofar as it shapes the
control flow (which stages run and how many loop iterations they make). -/
structure PipeCfg where
  generate_lyrics : Bool
  export_mode : ExportMode
  numChunks : ℕ
  normalize_volume : Bool
  pitch_shift : ℤ
  speed_multiplier : ℚ
  stems_to_export : List Stem

/-- The export branch (lines 241-295): Audio Only exports the mixed track
with no poll; Stems Only creates the folder and then polls once before each
selected stem; Video merges with no poll. -/
def exportOps (cfg : PipeCfg) : List Op :=
  match cfg.export_mode with
  | .audioOnly => [.work .exportAudioTrack]
  | .stemsOnly => .work .stemsSetup ::
      cfg.stems_to_export.flatMap (fun s => [.poll, .work (.exportStem s)])
  | .video => [.work .exportVideo]

/-- The full checkpoint sequence of `process_media` (lines 112-295):
polls at lines 114, 124, 164 (lyrics in Video mode only), 172, 182, 203,
231 (when the effects guard holds) and 257 (per exported stem); the split
loop (177-179), the stderr progress loop (191-197) and the mix loop
(206-216) run with no poll inside.  `numLines` is the number of progress
lines the separation subprocess emits. -/
def pipelineOps (cfg : PipeCfg) (numLines : ℕ) : List Op :=
  [.poll, .work .setup, .poll, .work .acquire]
  ++ (if cfg.generate_lyrics ∧ cfg.export_mode = .video then [.poll, .work .transcribe] else [])
  ++ [.poll, .work .splitSetup]
  ++ (List.range cfg.numChunks).map (fun i => .work (.splitChunk i))
  ++ [.poll, .work .separateSpawn]
  ++ (List.range numLines).map (fun i => .work (.progressLine i))
  ++ [.work .separateWait]
  ++ [.poll, .work .mixSetup]
  ++ (List.range cfg.numChunks).map (fun i => .work (.mixChunk i))
  ++ [.work .mergeChunks]
  ++ (if effects_stage_runs cfg.normalize_volume cfg.pitch_shift cfg.speed_multiplier
      then [.poll, .work .effects] else [])
  ++ exportOps cfg

/-- Cooperative execution of an op sequence: the flag is set from absolute
step index `setAt` on; a poll at an index where the flag is set raises
`CancelledError`, ending the run; work executes unconditionally.  Returns
the work items that actually executed. -/
def runOps (setAt : ℕ) : List Op → ℕ → List WorkItem
  | [], _ => []
  | .poll :: rest, i => if setAt ≤ i then [] else runOps setAt rest (i + 1)
  | .work w :: rest, i => w :: runOps setAt rest (i + 1)

/-- Number of ops before (and including none of) the first poll whose index
is at or past `setAt`; the whole length when no poll triggers. -/
def firstTriggeredPoll (setAt : ℕ) : List Op → ℕ → ℕ
  | [], _ => 0
  | .poll :: rest, i => if setAt ≤ i then 0 else 1 + firstTriggeredPoll setAt rest (i + 1)
  | .work _ :: rest, i => 1 + firstTriggeredPoll setAt rest (i + 1)

/-- The work items of an op sequence. -/
def worksOf (l : List Op) : List WorkItem :=
  l.filterMap (fun o => match o with | .poll => none | .work w => some w)

/-- Work items that are iterations of a per-item loop: per split chunk, per
progress line, per mixed chunk, per exported stem. -/
def loopItem : WorkItem → Bool
  | .splitChunk _ => true
  | .progressLine _ => true
  | .mixChunk _ => true
  | .exportStem _ => true
  | _ => false

/-- Work items that begin a stage of the pipeline. -/
def stageStart : WorkItem → Bool
  | .setup => true
  | .acquire => true
  | .transcribe => true
  | .splitSetup => true
  | .separateSpawn => true
  | .mixSetup => true
  | .effects => true
  | .exportAudioTrack => true
  | .stemsSetup => true
  | .exportVideo => true
  | _ => false

/-- Work items the source actually precedes with a `check_cancel` poll. -/
def amendedPolled : WorkItem → Bool
  | .setup => true
  | .acquire => true
  | .transcribe => true
  | .splitSetup => true
  | .separateSpawn => true
  | .mixSetup => true
  | .effects => true
  | .exportStem _ => true
  | _ => false

/-- `pollPrecedes sel l prev = true` iff every work item selected by `sel`
is immediately preceded by a poll (`prev` says whether the op just before
`l` was a poll). -/
def pollPrecedes (sel : WorkItem → Bool) : List Op → Bool → Bool
  | [], _ => true
  | .poll :: rest, _ => pollPrecedes sel rest true
  | .work w :: rest, prev => (!sel w || prev) && pollPrecedes sel rest false

/-- Whether the last op of `l` is a poll (`prev` when `l` is empty). -/
def lastIsPoll : List Op → Bool → Bool
  | [], prev => prev
  | .poll :: rest, _ => lastIsPoll rest true
  | .work _ :: rest, _ => lastIsPoll rest false

/-- Claim C1's poll placement: a poll at the start of every stage and one
immediately before every per-item loop iteration. -/
def claim_poll_coverage (cfg : PipeCfg) (numLines : ℕ) : Bool :=
  pollPrecedes stageStart (pipelineOps cfg numLines) false &&
    pollPrecedes loopItem (pipelineOps cfg numLines) false

/-! ## Queue loop (app_ui.py lines 282-332) -/

/-- The externally determined outcome of running one job's pipeline:
normal return, `CancelledError` (raised because the shared flag was set),
or any other exception. -/
inductive JobOutcome
  | ok
  | err
  | cancelled
deriving DecidableEq

/-- The `while` loop of `App._process_queue` (lines 289-316): jobs run
front to back; a successful job is popped and the completed count
incremented; `CancelledError` and any other exception both `break`,
leaving the queue as it stands.  Returns (completed count, queue at loop
exit, whether the cancellation flag is set). -/
def processQueueLoop : List JobOutcome → ℕ → ℕ × List JobOutcome × Bool
  | [], c => (c, [], false)
  | .ok :: rest, c => processQueueLoop rest (c + 1)
  | .err :: rest, c => (c, .err :: rest, false)
  | .cancelled :: rest, c => (c, .cancelled :: rest, true)

/-- `App._process_queue` (lines 282-332): run the loop, then in the
`finally` block clear the whole queue when the cancellation flag is set.
Returns (jobs completed, remaining queue). -/
def _process_queue (jobs : List JobOutcome) : ℕ × List JobOutcome :=
  let r := processQueueLoop jobs 0
  (r.1, if r.2.2 then [] else r.2.1)

/-- Concatenation of a list of text lines into one document body. -/
def concatStrings (l : List String) : String :=
  l.foldr (· ++ ·) ""

/-! ## Helper lemmas -/

theorem processQueueLoop_replicate_ok (n : ℕ) (l : List JobOutcome) (c : ℕ) :
    processQueueLoop (List.replicate n .ok ++ l) c = processQueueLoop l (c + n) := by
  induction n generalizing c with
  | zero => simp
  | succ k ih =>
    rw [List.replicate_succ, List.cons_append]
    show processQueueLoop (List.replicate k .ok ++ l) (c + 1) = processQueueLoop l (c + (k + 1))
    rw [ih]
    congr 1
    omega

theorem str_foldl_append (f : TranscriptSegment → String) :
    ∀ (l : List TranscriptSegment) (b : String),
      l.foldl (fun buf seg => buf ++ f seg) b = b ++ concatStrings (l.map f) := by
  intro l
  induction l with
  | nil => intro b; simp [concatStrings]
  | cons x t ih =>
    intro b
    simp only [List.foldl_cons, List.map_cons, concatStrings, List.foldr_cons]
    rw [ih (b ++ f x)]
    rw [String.append_assoc]
    rfl

theorem pyInt_of_nonneg (q : ℚ) (h : 0 ≤ q) : pyInt q = ⌊q⌋ := by
  simp [pyInt, h]

theorem pollPrecedes_append (sel : WorkItem → Bool) :
    ∀ (l₁ l₂ : List Op) (prev : Bool),
      pollPrecedes sel (l₁ ++ l₂) prev =
        (pollPrecedes sel l₁ prev && pollPrecedes sel l₂ (lastIsPoll l₁ prev)) := by
  intro l₁
  induction l₁ with
  | nil => intro l₂ prev; simp [pollPrecedes, lastIsPoll]
  | cons o t ih =>
    intro l₂ prev
    cases o with
    | poll =>
      show pollPrecedes sel (t ++ l₂) true
        = (pollPrecedes sel t true && pollPrecedes sel l₂ (lastIsPoll t true))
      exact ih l₂ true
    | work w =>
      show ((!sel w || prev) && pollPrecedes sel (t ++ l₂) false)
        = ((!sel w || prev) && pollPrecedes sel t false && pollPrecedes sel l₂ (lastIsPoll t false))
      rw [ih l₂ false, Bool.and_assoc]

theorem pollPrecedes_of_not_sel (sel : WorkItem → Bool) :
    ∀ (l : List Op) (prev : Bool),
      (∀ w : WorkItem, Op.work w ∈ l → sel w = false) → pollPrecedes sel l prev = true := by
  intro l
  induction l with
  | nil => intro prev _; rfl
  | cons o t ih =>
    intro prev h
    cases o with
    | poll =>
      exact ih true (fun w hw => h w (List.mem_cons_of_mem _ hw))
    | work w =>
      have hw : sel w = false := h w (List.mem_cons_self _ _)
      simp only [pollPrecedes, hw, Bool.not_false, Bool.true_or, Bool.true_and]
      exact ih false (fun v hv => h v (List.mem_cons_of_mem _ hv))

theorem pp_split_chunks (n : ℕ) (prev : Bool) :
    pollPrecedes amendedPolled ((List.range n).map (fun i => Op.work (.splitChunk i))) prev
      = true := by
  apply pollPrecedes_of_not_sel
  intro w hw
  simp only [List.mem_map] at hw
  obtain ⟨i, _, hi⟩ := hw
  cases hi
  rfl

theorem pp_progress_lines (n : ℕ) (prev : Bool) :
    pollPrecedes amendedPolled ((List.range n).map (fun i => Op.work (.progressLine i))) prev
      = true := by
  apply pollPrecedes_of_not_sel
  intro w hw
  simp only [List.mem_map] at hw
  obtain ⟨i, _, hi⟩ := hw
  cases hi
  rfl

theorem pp_mix_chunks (n : ℕ) (prev : Bool) :
    pollPrecedes amendedPolled ((List.range n).map (fun i => Op.work (.mixChunk i))) prev
      = true := by
  apply pollPrecedes_of_not_sel
  intro w hw
  simp only [List.mem_map] at hw
  obtain ⟨i, _, hi⟩ := hw
  cases hi
  rfl

theorem pp_stems_flat (l : List Stem) :
    ∀ prev : Bool,
      pollPrecedes amendedPolled (l.flatMap (fun s => [Op.poll, Op.work (.exportStem s)])) prev
        = true := by
  induction l with
  | nil => intro prev; rfl
  | cons s t ih =>
    intro prev
    simp only [List.flatMap_cons, List.cons_append, pollPrecedes]
    simpa [amendedPolled] using ih false

theorem pp_append_all (sel : WorkItem → Bool) (l₁ l₂ : List Op)
    (h₁ : ∀ prev, pollPrecedes sel l₁ prev = true)
    (h₂ : ∀ prev, pollPrecedes sel l₂ prev = true) :
    ∀ prev, pollPrecedes sel (l₁ ++ l₂) prev = true := by
  intro prev
  rw [pollPrecedes_append, h₁ prev, h₂ (lastIsPoll l₁ prev)]
  rfl

theorem runOps_eq_take (setAt : ℕ) :
    ∀ (l : List Op) (i : ℕ),
      runOps setAt l i = worksOf (l.take (firstTriggeredPoll setAt l i)) := by
  intro l
  induction l with
  | nil => intro i; rfl
  | cons o t ih =>
    intro i
    cases o with
    | poll =>
      by_cases h : setAt ≤ i
      · simp [runOps, firstTriggeredPoll, h, worksOf]
      · simp only [runOps, firstTriggeredPoll, if_neg h]
        rw [ih (i + 1)]
        simp [worksOf, List.take_succ_cons, Nat.add_comm 1]
    | work w =>
      simp only [runOps, firstTriggeredPoll]
      rw [ih (i + 1)]
      simp [worksOf, List.take_succ_cons, Nat.add_comm 1]

/-! ## Claim C2: queue semantics -/

/-- C2: the queue runs jobs one at a time front to back; a successful job
is popped and the completed count incremented; a job failing with a
non-cancellation error halts the queue with the not-yet-run jobs (and the
failed job) still present; when cancellation fires during a job the whole
queue stops and every remaining job is cleared. -/
theorem queue_front_to_back_semantics :
    (∀ n : ℕ, _process_queue (List.replicate n .ok) = (n, []))
    ∧ (∀ (n : ℕ) (post : List JobOutcome),
        _process_queue (List.replicate n .ok ++ .err :: post) = (n, .err :: post))
    ∧ (∀ (n : ℕ) (post : List JobOutcome),
        _process_queue (List.replicate n .ok ++ .cancelled :: post) = (n, [])) := by
  refine ⟨?_, ?_, ?_⟩
  · intro n
    have h := processQueueLoop_replicate_ok n [] 0
    simp only [List.append_nil] at h
    simp [_process_queue, h, processQueueLoop]
  · intro n post
    have h := processQueueLoop_replicate_ok n (.err :: post) 0
    simp [_process_queue, h, processQueueLoop]
  · intro n post
    have h := processQueueLoop_replicate_ok n (.cancelled :: post) 0
    simp [_process_queue, h, processQueueLoop]

/-! ## Claim C3: cleanup on every exit path -/

/-- C3 counterexample: when the scratch directory was created and still
exists but its removal fails, the directory is still present after the run
(the claim asserts it is absent on every exit path). -/
theorem cleanup_absence_cex :
    (process_media_finally .error true true false).2.dirExistsAfter = true := rfl

/-- C3 (amended): for every run that created a scratch directory, the
cleanup block runs on every exit path — success, cancellation, or error —
without altering the run's outcome; when removal succeeds the directory is
absent afterwards and the cleanup event is emitted; when removal fails the
directory may remain and only the warning event is emitted; the cleanup
block never raises. -/
theorem cleanup_always_runs :
    ∀ outcome : RunOutcome,
      process_media_finally outcome true true true = (outcome, ⟨false, some .cleaned, false⟩)
      ∧ process_media_finally outcome true true false = (outcome, ⟨true, some .warned, false⟩)
      ∧ (∀ created ex rem : Bool,
          (process_media_finally outcome created ex rem).2.raised = false) := by
  intro o
  refine ⟨rfl, rfl, ?_⟩
  intro c e r
  cases c <;> cases e <;> cases r <;> rfl

/-! ## Claim C10: Stems Only with a missing stem selection -/

/-- C10: calling the pipeline in `Stems Only` mode with `stems_to_export`
left at its default `None` normalizes the selection to the empty list; the
per-job stems folder is still created, no stem file is exported, and the
branch ends with the success event at 100. -/
theorem stems_only_default_none :
    normalize_stems_to_export none = []
    ∧ ∀ hasFiles : Stem → Bool,
        stems_only_export none hasFiles =
          { dirCreated := true, exported := [], finalPct := 100, finalSuccess := true } :=
  ⟨rfl, fun _ => rfl⟩

/-! ## Claim C6: chunk count -/

/-- C6: for every probed duration `d > 0` the split stage computes
`ceil(d / 300)` chunks with minimum 1; durations exactly divisible by the
chunk length produce no trailing empty chunk; a 601-second track splits
into exactly 3 chunks of durations 300, 300 and 1 second. -/
theorem split_chunk_count :
    (∀ d : ℚ, 0 < d →
        num_chunks d = ⌈d / CHUNK_DURATION_SECONDS⌉ ∧ 1 ≤ num_chunks d)
    ∧ (∀ k : ℕ, 0 < k → num_chunks (CHUNK_DURATION_SECONDS * k) = k)
    ∧ num_chunks 601 = 3
    ∧ chunk_durations 601 = [300, 300, 1] := by
  have hCD : (0:ℚ) < CHUNK_DURATION_SECONDS := by norm_num [CHUNK_DURATION_SECONDS]
  have h601 : (⌈(601:ℚ) / CHUNK_DURATION_SECONDS⌉ : ℤ) = 3 := by
    rw [CHUNK_DURATION_SECONDS, Int.ceil_eq_iff] <;> norm_num
  have hnum601 : num_chunks 601 = 3 := by
    have h : num_chunks 601 = ⌈(601:ℚ) / CHUNK_DURATION_SECONDS⌉ := by
      apply if_neg
      rw [h601]
      norm_num
    rw [h, h601]
  refine ⟨?_, ?_, hnum601, ?_⟩
  · intro d hd
    have hpos : 0 < ⌈d / CHUNK_DURATION_SECONDS⌉ := Int.ceil_pos.mpr (div_pos hd hCD)
    have hne : ⌈d / CHUNK_DURATION_SECONDS⌉ ≠ 0 := by omega
    have heq : num_chunks d = ⌈d / CHUNK_DURATION_SECONDS⌉ := if_neg hne
    exact ⟨heq, heq ▸ hpos⟩
  · intro k hk
    have h1 : CHUNK_DURATION_SECONDS * (k:ℚ) / CHUNK_DURATION_SECONDS = (k:ℚ) := by
      field_simp
    have h2 : (⌈((k:ℕ):ℚ)⌉ : ℤ) = k := Int.ceil_natCast k
    have hne : (⌈CHUNK_DURATION_SECONDS * (k:ℚ) / CHUNK_DURATION_SECONDS⌉ : ℤ) ≠ 0 := by
      rw [h1, h2]
      omega
    have heq : num_chunks (CHUNK_DURATION_SECONDS * (k:ℚ))
        = ⌈CHUNK_DURATION_SECONDS * (k:ℚ) / CHUNK_DURATION_SECONDS⌉ := if_neg hne
    rw [heq, h1, h2]
  · rw [chunk_durations, hnum601]
    show List.map _ [0, 1, 2] = _
    simp only [List.map_cons, List.map_nil, CHUNK_DURATION_SECONDS]
    norm_num

/-- C6 witness: the general statements evaluated at duration 601 and at two
exact chunk lengths. -/
theorem split_chunk_count_witness :
    (num_chunks 601 = ⌈(601:ℚ) / CHUNK_DURATION_SECONDS⌉ ∧ 1 ≤ num_chunks 601)
    ∧ num_chunks (CHUNK_DURATION_SECONDS * (2:ℕ)) = 2 :=
  ⟨split_chunk_count.1 601 (by norm_num), split_chunk_count.2.1 2 (by norm_num)⟩

/-! ## Claim C5: per-chunk stem mixing -/

/-- C5: in Mix+Merge, a stem is included in a chunk's weighted mix iff its
separated file exists and its configured volume is strictly positive; when
at least one stem qualifies, silence is never substituted; when none
qualifies, the silent placeholder of exactly the configured chunk length is
substituted. -/
theorem mix_stem_inclusion :
    ∀ (fileExists : Stem → Bool) (stem_volumes : Stem → ℚ),
      (∀ s : Stem,
          s ∈ valid_stems fileExists stem_volumes ↔ fileExists s = true ∧ 0 < stem_volumes s)
      ∧ ((∃ s : Stem, fileExists s = true ∧ 0 < stem_volumes s) →
          ∀ t : ℚ, mix_chunk fileExists stem_volumes ≠ .silence t)
      ∧ ((∀ s : Stem, ¬(fileExists s = true ∧ 0 < stem_volumes s)) →
          mix_chunk fileExists stem_volumes = .silence CHUNK_DURATION_SECONDS) := by
  intro fe vol
  have hmem : ∀ s : Stem, s ∈ valid_stems fe vol ↔ fe s = true ∧ 0 < vol s := by
    intro s
    have hs : s ∈ stems := by cases s <;> simp [stems]
    simp [valid_stems, List.mem_filter, hs]
  refine ⟨hmem, ?_, ?_⟩
  · rintro ⟨s, hs⟩ t
    have hin : s ∈ valid_stems fe vol := (hmem s).mpr hs
    have hne : valid_stems fe vol ≠ [] := by
      intro h
      rw [h] at hin
      exact List.not_mem_nil s hin
    rw [mix_chunk, if_neg hne]
    intro h
    exact MixedChunk.noConfusion h
  · intro h
    have hnil : valid_stems fe vol = [] := by
      rw [valid_stems, List.filter_eq_nil_iff]
      intro s _
      intro hb
      simp only [Bool.and_eq_true, decide_eq_true_eq] at hb
      exact h s hb
    rw [mix_chunk, if_pos hnil]

/-- C5 witness: with every file present at unity volume the chunk is never
silence; with no file present the chunk is the 300-second placeholder. -/
theorem mix_stem_inclusion_witness :
    (∀ t : ℚ, mix_chunk (fun _ => true) (fun _ => 1) ≠ .silence t)
    ∧ mix_chunk (fun _ => false) (fun _ => 0) = .silence CHUNK_DURATION_SECONDS :=
  ⟨(mix_stem_inclusion (fun _ => true) (fun _ => 1)).2.1 ⟨.vocals, rfl, by norm_num⟩,
   (mix_stem_inclusion (fun _ => false) (fun _ => 0)).2.2 (by intro s; simp)⟩

/-! ## Claim C8: color conversion -/

/-- C8 counterexample: the string `"#aabbcc\n"` is malformed under the
claim (wrong length, 8 characters), yet `hex_to_ass_color` converts it to
a BGR token instead of returning the opaque-white fallback, because the
anchored Python regex also matches just before a single trailing newline. -/
theorem hex_color_fallback_cex :
    strict_color_format (.str "#aabbcc\n") = false
    ∧ hex_to_ass_color (.str "#aabbcc\n") = "&HCCBBAA&"
    ∧ hex_to_ass_color (.str "#aabbcc\n") ≠ "&H00FFFFFF&" := by
  refine ⟨by decide, by decide, by decide⟩

/-- C8 (amended): for every valid 6-hex-digit string `#RRGGBB` the helper
returns the uppercased byte-reversed token `&HBBGGRR&` of fixed length 9;
every non-string and every string the anchored pattern rejects yields the
opaque-white fallback without raising — where the pattern accepts exactly
`#RRGGBB`, optionally followed by one trailing newline. -/
theorem hex_color_conversion :
    (∀ a b c d e f : Char,
        [a, b, c, d, e, f].all isAsciiHexDigit = true →
        hex_to_ass_color (.str ⟨['#', a, b, c, d, e, f]⟩) =
            ⟨['&', 'H', e.toUpper, f.toUpper, c.toUpper, d.toUpper, a.toUpper, b.toUpper, '&']⟩
          ∧ (hex_to_ass_color (.str ⟨['#', a, b, c, d, e, f]⟩)).length = 9)
    ∧ (∀ s : String, colorRegexMatch s = false → hex_to_ass_color (.str s) = "&H00FFFFFF&")
    ∧ hex_to_ass_color .nonStr = "&H00FFFFFF&" := by
  have hAmp : '&'.toUpper = '&' := by decide
  have hH : 'H'.toUpper = 'H' := by decide
  refine ⟨?_, ?_, rfl⟩
  · intro a b c d e f h
    have hm : colorRegexMatch ⟨['#', a, b, c, d, e, f]⟩ = true := by
      simp only [colorRegexMatch, colorRegexCore, Bool.or_eq_true]
      left
      simpa using h
    have heq : hex_to_ass_color (.str ⟨['#', a, b, c, d, e, f]⟩) =
        ⟨['&', 'H', e.toUpper, f.toUpper, c.toUpper, d.toUpper, a.toUpper, b.toUpper, '&']⟩ := by
      rw [hex_to_ass_color]
      rw [if_pos hm]
      simp [pySlice, hAmp, hH]
    refine ⟨heq, ?_⟩
    rw [heq]
    rfl
  · intro s h
    rw [hex_to_ass_color, if_neg (by rw [h]; exact Bool.false_ne_true)]

/-- C8 witness: the conversion evaluated on a concrete valid color and a
concrete malformed string. -/
theorem hex_color_conversion_witness :
    hex_to_ass_color (.str ⟨['#', '1', '2', 'a', 'b', 'c', 'd']⟩) =
        ⟨['&', 'H', 'c'.toUpper, 'd'.toUpper, 'a'.toUpper, 'b'.toUpper, '1'.toUpper, '2'.toUpper, '&']⟩
    ∧ hex_to_ass_color (.str "zzz") = "&H00FFFFFF&" :=
  ⟨(hex_color_conversion.1 '1' '2' 'a' 'b' 'c' 'd' (by decide)).1,
   hex_color_conversion.2.1 "zzz" (by decide)⟩

/-! ## Claim C4: separation progress mapping -/

/-- The per-step capped counter of the source loop agrees with the spec's
cumulative rollover count capped at the chunk count. -/
theorem demucs_progress_eq_spec_aux (numChunks : ℕ) :
    ∀ (ps : List ℕ) (prev cnt : ℕ),
      demucs_progress numChunks ps (min cnt numChunks, prev) =
        spec_progress_values numChunks prev cnt ps := by
  intro ps
  induction ps with
  | nil => intro prev cnt; rfl
  | cons p rest ih =>
    intro prev cnt
    by_cases h : p < prev ∧ 95 < prev
    · simp only [demucs_progress, spec_progress_values, if_pos h]
      have hmin : min (min cnt numChunks + 1) numChunks = min (cnt + 1) numChunks := by omega
      rw [hmin]
      rw [ih p (cnt + 1)]
    · simp only [demucs_progress, spec_progress_values, if_neg h, Nat.add_zero]
      rw [ih p cnt]

/-- C4: during the Separate stage, each parsed percentage `p` is reported
as overall progress `30 + ((c + p/100) / totalChunks) * 40`, where `c` is
the number of rollover events seen so far (a parsed percentage dropping
below its predecessor while the predecessor exceeded 95), capped at the
chunk count — the separation stage mapped onto the 30-70 slice. -/
theorem separation_progress_formula :
    ∀ (numChunks : ℕ) (percentages : List ℕ),
      demucs_progress numChunks percentages (0, 0) =
        spec_progress_values numChunks 0 0 percentages := by
  intro n ps
  have h := demucs_progress_eq_spec_aux n ps 0 0
  rwa [Nat.zero_min] at h

/-! ## Claim C9: effects order and pitch ratio -/

/-- C9: the Effects stage is skipped exactly when normalization is off,
pitch shift is zero and speed is 1.0; when it runs, the applied filters
appear in the fixed order loudness normalization, then pitch shift with
frequency ratio `2^(semitones/12)`, then tempo change; `+12` semitones
gives ratio exactly 2 and `-12` exactly 1/2. -/
theorem effects_order_and_pitch :
    (∀ (n : Bool) (p : ℤ) (s : ℚ),
        (effects_stage_runs n p s = false ↔ n = false ∧ p = 0 ∧ s = 1)
        ∧ (effects_filters n p s = [] ↔ n = false ∧ p = 0 ∧ s = 1)
        ∧ (effects_filters n p s).Chain' (fun a b => filterRank a < filterRank b)
        ∧ (AudioFilter.loudnorm ∈ effects_filters n p s ↔ n = true)
        ∧ (∀ r : ℝ,
            AudioFilter.rubberband r ∈ effects_filters n p s ↔ p ≠ 0 ∧ r = pitch_multiplier p)
        ∧ (∀ v : ℚ, AudioFilter.atempo v ∈ effects_filters n p s ↔ s ≠ 1 ∧ v = s))
    ∧ pitch_multiplier 12 = 2
    ∧ pitch_multiplier (-12) = 1 / 2 := by
  refine ⟨?_, ?_, ?_⟩
  · intro n p s
    by_cases hp : p = 0 <;> by_cases hs : s = 1 <;> cases n <;>
      simp [effects_stage_runs, effects_filters, hp, hs, filterRank, List.chain'_cons,
        bne_iff_ne]
  · have h1 : ((12:ℤ):ℝ) / 12 = 1 := by norm_num
    rw [pitch_multiplier, h1, Real.rpow_one]
  · have h1 : ((-12:ℤ):ℝ) / 12 = -1 := by norm_num
    rw [pitch_multiplier, h1, Real.rpow_neg_one]
    norm_num

/-! ## Claim C7: karaoke subtitle generation -/

/-- C7 counterexample: a word whose end time precedes its start time is
emitted with a negative karaoke duration (`int((0 - 1) * 100) = -100`),
so the emitted duration is not floored to 0. -/
theorem karaoke_duration_cex :
    duration_cs ⟨"oops", 1, 0⟩ = -100 ∧ duration_cs ⟨"oops", 1, 0⟩ < 0 := by
  have h : duration_cs ⟨"oops", 1, 0⟩ = -100 := by
    norm_num [duration_cs, pyInt]
  exact ⟨h, by rw [h]; norm_num⟩

/-- C7 (amended): subtitle generation is a pure function of the
transcription result and style block (hence byte-deterministic); the
document is the fixed header followed by one cue per segment whose display
window runs from `max(0, start - 0.5)` to the segment's natural end, with
word fragments joined by a single space in original order; an empty
segment list yields exactly the header.  Each word's duration in
centiseconds is `(end - start) * 100` truncated toward zero: it equals the
floor and is nonnegative whenever `start ≤ end` (in particular 0 for
zero-duration words); it is not clamped below, coming out negative exactly
when `end ≤ start - 0.01` (a shortfall under one centisecond still
truncates toward zero to 0). -/
theorem karaoke_subtitle_generation :
    (∀ styles : KaraokeStyles, _generate_karaoke_subtitles [] styles = ass_header styles)
    ∧ (∀ (segs : List TranscriptSegment) (styles : KaraokeStyles),
        _generate_karaoke_subtitles segs styles =
          ass_header styles ++ concatStrings (segs.map spec_cue_line))
    ∧ (∀ w : TranscriptWord, w.start ≤ w.end_ →
        duration_cs w = ⌊(w.end_ - w.start) * 100⌋ ∧ 0 ≤ duration_cs w)
    ∧ (∀ w : TranscriptWord, w.end_ = w.start → duration_cs w = 0)
    ∧ (∀ w : TranscriptWord, w.end_ ≤ w.start - 1/100 → duration_cs w < 0)
    ∧ (∀ w : TranscriptWord, w.start - 1/100 < w.end_ → 0 ≤ duration_cs w) := by
  have hgen : ∀ (segs : List TranscriptSegment) (styles : KaraokeStyles),
      _generate_karaoke_subtitles segs styles =
        ass_header styles ++ concatStrings (segs.map spec_cue_line) := by
    intro segs styles
    exact str_foldl_append spec_cue_line segs (ass_header styles)
  refine ⟨?_, hgen, ?_, ?_, ?_, ?_⟩
  · intro styles
    rw [hgen []]
    show ass_header styles ++ "" = ass_header styles
    exact String.append_empty _
  · intro w h
    have hq : (0:ℚ) ≤ (w.end_ - w.start) * 100 :=
      mul_nonneg (sub_nonneg.mpr h) (by norm_num)
    have heq : duration_cs w = ⌊(w.end_ - w.start) * 100⌋ := by
      rw [duration_cs, pyInt_of_nonneg _ hq]
    exact ⟨heq, heq ▸ Int.floor_nonneg.mpr hq⟩
  · intro w h
    simp [duration_cs, h, pyInt]
  · intro w h
    have hq : (w.end_ - w.start) * 100 ≤ -1 := by linarith
    have hneg : ¬ (0:ℚ) ≤ (w.end_ - w.start) * 100 := by linarith
    rw [duration_cs, pyInt, if_neg hneg]
    have hfl : (1:ℤ) ≤ ⌊-((w.end_ - w.start) * 100)⌋ := by
      rw [Int.le_floor]
      push_cast
      linarith
    omega
  · intro w h
    by_cases hq : (0:ℚ) ≤ (w.end_ - w.start) * 100
    · rw [duration_cs, pyInt, if_pos hq]
      exact Int.floor_nonneg.mpr hq
    · rw [duration_cs, pyInt, if_neg hq]
      have hlt : -((w.end_ - w.start) * 100) < 1 := by
        push_neg at hq
        nlinarith
      have hfl : ⌊-((w.end_ - w.start) * 100)⌋ < 1 := by
        rw [Int.floor_lt]
        push_cast
        linarith
      omega

/-- C7 witness: the empty transcription yields exactly the header, a
zero-duration word is emitted with duration 0, and a word whose end falls
a full second before its start is emitted with a negative duration. -/
theorem karaoke_subtitle_generation_witness :
    _generate_karaoke_subtitles []
        ⟨.str "#FFFF00", .str "#FFFFFF", .str "#000000", .str "#000000", "Arial", 30⟩ =
      ass_header ⟨.str "#FFFF00", .str "#FFFFFF", .str "#000000", .str "#000000", "Arial", 30⟩
    ∧ duration_cs ⟨"la", 0, 0⟩ = 0
    ∧ duration_cs ⟨"down", 2, 1⟩ < 0 :=
  ⟨karaoke_subtitle_generation.1 _,
   karaoke_subtitle_generation.2.2.2.1 ⟨"la", 0, 0⟩ rfl,
   karaoke_subtitle_generation.2.2.2.2.1 ⟨"down", 2, 1⟩ (by norm_num)⟩

/-! ## Claim C1: cancellation poll placement -/

/-- C1 counterexample: in a two-chunk Audio Only run with two subprocess
progress lines, the claimed poll placement — a poll at the start of every
stage and immediately before every per-item loop iteration — fails: the
second split-chunk iteration, every progress line, the second mix
iteration and the export all run with no poll directly before them. -/
theorem pipeline_poll_coverage_cex :
    claim_poll_coverage ⟨false, .audioOnly, 2, false, 0, 1, []⟩ 2 = false := by decide

/-- C1 (amended): the pipeline polls the shared flag at the start of Setup,
Acquire, Transcribe (when it runs), Split, Separate, Mix and Effects (when
it runs) and before each stem export in Stems Only mode, but not inside
the per-chunk split and mix loops, not per subprocess progress line, and
not before the Audio Only or Video export; whenever a poll finds the flag
set it raises `CancelledError` immediately, so exactly the work preceding
the first triggered poll executes and nothing after it. -/
theorem pipeline_poll_placement :
    (∀ (cfg : PipeCfg) (numLines : ℕ),
        pollPrecedes amendedPolled (pipelineOps cfg numLines) false = true)
    ∧ (∀ (cfg : PipeCfg) (numLines setAt : ℕ),
        runOps setAt (pipelineOps cfg numLines) 0 =
          worksOf ((pipelineOps cfg numLines).take
            (firstTriggeredPoll setAt (pipelineOps cfg numLines) 0))) := by
  constructor
  · intro cfg numLines
    rcases cfg with ⟨gl, mode, nc, nv, psh, spd, ste⟩
    simp only [pipelineOps]
    refine pp_append_all _ _ _
      (pp_append_all _ _ _
        (pp_append_all _ _ _
          (pp_append_all _ _ _
            (pp_append_all _ _ _
              (pp_append_all _ _ _
                (pp_append_all _ _ _
                  (pp_append_all _ _ _
                    (pp_append_all _ _ _
                      (pp_append_all _ _ _
                        (pp_append_all _ _ _ ?_ ?_)
                        ?_)
                      ?_)
                    ?_)
                  ?_)
                ?_)
              ?_)
            ?_)
          ?_)
        ?_)
      ?_ false
    · intro prev
      rfl
    · intro prev
      split
      · rfl
      · rfl
    · intro prev
      rfl
    · intro prev
      exact pp_split_chunks _ prev
    · intro prev
      rfl
    · intro prev
      exact pp_progress_lines _ prev
    · intro prev
      rfl
    · intro prev
      rfl
    · intro prev
      exact pp_mix_chunks _ prev
    · intro prev
      rfl
    · intro prev
      split
      · rfl
      · rfl
    · intro prev
      cases mode with
      | audioOnly => rfl
      | video => rfl
      | stemsOnly => exact pp_stems_flat ste false
  · intro cfg numLines setAt
    exact runOps_eq_take setAt (pipelineOps cfg numLines) 0
